import Mathlib

/-!
Shallow embedding of the `python-scoutnet` repository (files `scoutnet.py`,
`scoutnet/client.py`, `scoutnet/models.py`) for verifying the claims of its
natural-language specification.

Modelling conventions:
* Python strings are Lean `String`s (a `String` is a list of unicode
  code points, matching Python's `str`); `str.lower` is modelled by
  `strToLower` (per-character `Char.toLower`); Python string comparison is
  code-point lexicographic, modelled by `strLe`.
* Python `None`-able values are `Option`s; Python truthiness of a string
  (`if phone:`) is `≠ none` and `≠ some ""`, and of a list, non-emptiness.
* Python `dict`s that the code iterates are association lists in iteration
  order; `d[k] = v` is `dictInsert` (replace in place or append, which is
  Python's insertion-order semantics); `set` values that are only ever
  consumed through `sorted(list(s))` are modelled as duplicate-free lists
  built with `setAdd`, and `sorted` as `pySorted` (insertion sort by the
  lexicographic order; the sorted permutation of a list of strings is
  unique, so any correct sort models Python's `sorted`).
* Exceptions are `Except String`; the raised message is the error value.
* HTTP fetches are modelled by passing the payload that the fetch would
  return as data: a mailing list's metadata (`ListEnv`) carries the member
  payload its `link` URL serves, and a client (`ClientState`) carries the
  payloads its two endpoints serve.  Non-2xx transport errors are out of
  scope (the spec treats the transport as an external collaborator).
* `pydantic` field unwrapping (`{k: v.get("value") for ...}`) plus required
  field checking is modelled by raw-record structures with `Option` fields
  (`none` = the key absent or lacking a "value" entry) and `data_validate`
  functions that fail on a missing required field.  Email-syntax validation
  (`EmailStr`) and phone validation (`PhoneNumber`) are performed by
  external libraries, not by code in this repository, and are not modelled;
  the field validators that lowercase e-mail addresses are modelled.
-/

/-- Python `str.lower`, character-wise lowercasing (ASCII-complete, as the
e-mail addresses and phone strings handled by the code are ASCII). -/
def strToLower (s : String) : String := String.mk (s.data.map Char.toLower)

/-- Code-point lexicographic comparison of character lists, the order Python
uses to compare and sort `str` values. -/
def charsLe : List Char → List Char → Bool
  | [], _ => true
  | _ :: _, [] => false
  | a :: as, b :: bs => if a < b then true else if b < a then false else charsLe as bs

/-- Python's `<=` on strings: code-point lexicographic order. -/
def strLe (a b : String) : Prop := charsLe a.data b.data = true

instance : DecidableRel strLe := fun a b => instDecidableEqBool (charsLe a.data b.data) true

instance : IsTotal String strLe where
  total a b := by
    show charsLe a.data b.data = true ∨ charsLe b.data a.data = true
    generalize a.data = x
    generalize b.data = y
    induction x generalizing y with
    | nil => exact Or.inl rfl
    | cons c cs ih =>
      cases y with
      | nil => exact Or.inr rfl
      | cons d ds =>
        rcases lt_trichotomy c d with h | h | h
        · left; simp [charsLe, h]
        · subst h
          rcases ih ds with h2 | h2
          · left; simp [charsLe, lt_irrefl, h2]
          · right; simp [charsLe, lt_irrefl, h2]
        · right; simp [charsLe, h]

theorem charsLe_trans_aux :
    ∀ x y z : List Char, charsLe x y = true → charsLe y z = true → charsLe x z = true
  | [], _, _, _, _ => rfl
  | _ :: _, [], _, h1, _ => by simp [charsLe] at h1
  | _ :: _, _ :: _, [], _, h2 => by simp [charsLe] at h2
  | p :: ps, q :: qs, r :: rs, h1, h2 => by
    rcases lt_trichotomy p q with hpq | hpq | hpq
    · rcases lt_trichotomy q r with hqr | hqr | hqr
      · simp [charsLe, lt_trans hpq hqr]
      · subst hqr; simp [charsLe, hpq]
      · simp [charsLe, hqr, lt_asymm hqr] at h2
    · subst hpq
      rcases lt_trichotomy p r with hqr | hqr | hqr
      · simp [charsLe, hqr]
      · subst hqr
        simp only [charsLe, if_neg (lt_irrefl p)] at h1 h2 ⊢
        exact charsLe_trans_aux ps qs rs h1 h2
      · simp [charsLe, hqr, lt_asymm hqr] at h2
    · simp [charsLe, hpq, lt_asymm hpq] at h1

instance : IsTrans String strLe where
  trans a b c h1 h2 := charsLe_trans_aux a.data b.data c.data h1 h2

theorem charsLe_antisymm_aux :
    ∀ x y : List Char, charsLe x y = true → charsLe y x = true → x = y
  | [], [], _, _ => rfl
  | [], _ :: _, _, h2 => by simp [charsLe] at h2
  | _ :: _, [], h1, _ => by simp [charsLe] at h1
  | c :: cs, d :: ds, h1, h2 => by
    rcases lt_trichotomy c d with h | h | h
    · simp [charsLe, h, lt_asymm h] at h2
    · subst h
      simp only [charsLe, if_neg (lt_irrefl c)] at h1 h2
      simp [charsLe_antisymm_aux cs ds h1 h2]
    · simp [charsLe, h, lt_asymm h] at h1

instance : IsAntisymm String strLe where
  antisymm a b h1 h2 := by
    obtain ⟨x⟩ := a
    obtain ⟨y⟩ := b
    exact congrArg String.mk (charsLe_antisymm_aux x y h1 h2)

instance : IsRefl String strLe where
  refl a := by
    show charsLe a.data a.data = true
    generalize a.data = x
    induction x with
    | nil => rfl
    | cons c cs ih => simp [charsLe, lt_irrefl, ih]

/-- Python's `sorted` on a list of strings (ascending code-point
lexicographic order). -/
def pySorted (l : List String) : List String := List.insertionSort strLe l

/-- Python `set.add`, on the duplicate-free-list model of a set. -/
def setAdd (s : List String) (x : String) : List String :=
  if x ∈ s then s else x :: s

/-- Python `d[k] = v` on an insertion-ordered dictionary modelled as an
association list: replace the value in place if the key is present,
otherwise append at the end. -/
def dictInsert {β : Type} (k : Int) (v : β) : List (Int × β) → List (Int × β)
  | [] => [(k, v)]
  | (k', v') :: rest => if k' = k then (k, v) :: rest else (k', v') :: dictInsert k v rest

instance {ε α : Type} [DecidableEq ε] [DecidableEq α] : DecidableEq (Except ε α) := fun x y =>
  match x, y with
  | .ok a, .ok b =>
    if h : a = b then .isTrue (by rw [h]) else .isFalse (fun hc => h (Except.ok.inj hc))
  | .error a, .error b =>
    if h : a = b then .isTrue (by rw [h]) else .isFalse (fun hc => h (Except.error.inj hc))
  | .ok _, .error _ => .isFalse (fun hc => Except.noConfusion hc)
  | .error _, .ok _ => .isFalse (fun hc => Except.noConfusion hc)

/-! ## Phone normalizer (`scoutnet.py`, `ScoutnetMember.phone_to_e164`) -/

/-- Characters removed by `re.sub(r"[\-\s]", "", phone)`: the hyphen and the
(ASCII) whitespace class. -/
def isPhoneStripped (c : Char) : Bool :=
  c = '-' || c = ' ' || c = '\t' || c = '\n' || c = '\r' || c = '\x0b' || c = '\x0c'

/-- Step `re.sub(r"[\-\s]", "", phone)`: remove every hyphen and whitespace
character. -/
def phoneStrip (s : String) : String :=
  String.mk (s.data.filter (fun c => !isPhoneStripped c))

/-- Step `re.sub(r"^0", "+46", phone)`: replace one leading `0` by `+46`. -/
def phoneReplaceZero (s : String) : String :=
  match s.data with
  | '0' :: rest => String.mk ('+' :: '4' :: '6' :: rest)
  | _ => s

/-- Step `if re.match(r"^[1-9]", phone): phone = f"+{phone}"`: prepend `+`
when the string starts with a digit 1-9. -/
def phonePrependPlus (s : String) : String :=
  match s.data with
  | c :: _ => if '1' ≤ c && c ≤ '9' then String.mk ('+' :: s.data) else s
  | [] => s

/-- The three transformation steps of `phone_to_e164`, in the order the code
applies them. -/
def phoneTransform (s : String) : String :=
  phonePrependPlus (phoneReplaceZero (phoneStrip s))

/-- Validation `re.match(r"^\+\d{11,}$", phone)`: a `+` followed by at least
eleven digits and nothing else. -/
def phoneMatchesE164 (s : String) : Bool :=
  match s.data with
  | '+' :: rest => decide (11 ≤ rest.length) && rest.all Char.isDigit
  | _ => false

/-- `ScoutnetMember.phone_to_e164` from `scoutnet.py`.  `if phone:` is
Python truthiness: the block is skipped (and the input returned unchanged)
both for `None` and for the empty string.  On validation failure the code
logs a warning and returns `None`. -/
def phone_to_e164 (phone : Option String) : Option String :=
  match phone with
  | none => none
  | some s =>
    if s = "" then some s
    else
      let t := phoneTransform s
      if phoneMatchesE164 t then some t else none

/-- Claim-side definition, following the spec's §4.2 steps on a (present)
raw phone string: strip hyphens and whitespace, expand a leading `0` to
`+46`, prepend `+` before a leading digit 1-9, then accept the result only
if it matches `+` followed by at least eleven digits (a rejected string
yields an absent result, the code's observed failure policy). -/
def phone_normalize_steps (s : String) : Option String :=
  let t := phoneTransform s
  if phoneMatchesE164 t then some t else none

/-- Claim-side definition for the error-handling claim, following the
spec's words: on validation failure the normalizer fails with an
InvalidPhoneNumber condition identifying the offending string instead of
returning a value. -/
def phone_normalize_failing (phone : Option String) : Except String (Option String) :=
  match phone with
  | none => .ok none
  | some s =>
    let t := phoneTransform s
    if phoneMatchesE164 t then .ok (some t)
    else .error ("Invalid phone number: " ++ t)

/-! ## Record validators (`scoutnet/models.py`) -/

/-- Raw mailing-list member record after field unwrapping: each field is
the scalar under the remote record's "value" key, or `none` when the key is
absent (or carries no "value" entry).  `member_no` is the value after
pydantic's string-to-int coercion. -/
structure RawMLMember where
  member_no : Option Int
  first_name : Option String
  last_name : Option String
  email : Option String
  extra_emails : Option (List String)
deriving DecidableEq

/-- `ScoutnetMailinglistMember` from `scoutnet/models.py`: validated
mailing-list member record. -/
structure ScoutnetMailinglistMember where
  member_no : Int
  first_name : String
  last_name : String
  email : Option String
  extra_emails : List String
deriving DecidableEq

/-- `ScoutnetMailinglistMember.data_validate` from `scoutnet/models.py`:
requires `member_no`, `first_name`, `last_name` and `extra_emails`;
`email` is optional; the field validators lowercase `email` and every entry
of `extra_emails`.  (Pydantic reports the offending field in its error;
the message content is not modelled.) -/
def ScoutnetMailinglistMember.data_validate (r : RawMLMember) :
    Except String ScoutnetMailinglistMember :=
  match r.member_no, r.first_name, r.last_name, r.extra_emails with
  | some no, some fn, some ln, some ex =>
    .ok { member_no := no, first_name := fn, last_name := ln,
          email := r.email.map strToLower, extra_emails := ex.map strToLower }
  | _, _, _, _ => .error "validation error: missing required field"

/-- Raw member record (roster entry) after field unwrapping, as consumed by
`ScoutnetMember.model_validate`; `member_no` after int coercion,
`date_of_birth` as its (ISO date) string. -/
structure RawScoutnetMember where
  member_no : Option Int
  first_name : Option String
  last_name : Option String
  date_of_birth : Option String
  group : Option String
  contact_mobile_phone : Option String
  email : Option String
  contact_alt_email : Option String
deriving DecidableEq

/-- `ScoutnetMember` from `scoutnet/models.py`: validated roster member.
`date_of_birth` is kept as its ISO string (pydantic's date parsing is type
coercion with no claim attached); `contact_mobile_phone` is kept as given
(its validation is done by the external `pydantic_extra_types.PhoneNumber`
library, not by code of this repository). -/
structure ScoutnetMember where
  member_no : Int
  first_name : String
  last_name : String
  date_of_birth : String
  group : String
  contact_mobile_phone : Option String
  email : Option String
  contact_alt_email : Option String
deriving DecidableEq

/-- `ScoutnetMember.data_validate` from `scoutnet/models.py`: requires
`member_no`, `first_name`, `last_name`, `date_of_birth` and `group`;
the field validators lowercase `email` and `contact_alt_email`. -/
def ScoutnetMember.data_validate (r : RawScoutnetMember) : Except String ScoutnetMember :=
  match r.member_no, r.first_name, r.last_name, r.date_of_birth, r.group with
  | some no, some fn, some ln, some dob, some g =>
    .ok { member_no := no, first_name := fn, last_name := ln,
          date_of_birth := dob, group := g,
          contact_mobile_phone := r.contact_mobile_phone,
          email := r.email.map strToLower,
          contact_alt_email := r.contact_alt_email.map strToLower }
  | _, _, _, _, _ => .error "validation error: missing required field"

/-- `ScoutnetMailinglist` from `scoutnet/models.py`.  The `members` mapping
is an insertion-ordered dictionary keyed by `member_no`. -/
structure ScoutnetMailinglist where
  id : Int
  title : Option String
  description : Option String
  aliases : List String
  recipients : Option (List String)
  members : Option (List (Int × ScoutnetMailinglistMember))
deriving DecidableEq

/-! ## List aggregator (`scoutnet/client.py`, `ScoutnetClient.get_list`) -/

/-- One custom list's environment: its metadata entry from the customlists
payload (`link`, `id`, `title`, `description`, and the values of its
`aliases` mapping in iteration order) together with the member payload that
an HTTP GET of its `link` URL returns (the items of the response's `data`
mapping; the keys are never used by the code). -/
structure ListEnv where
  link : Option String
  id : Int
  title : Option String
  description : Option String
  aliases : List String
  memberPayload : List RawMLMember
deriving DecidableEq

/-- The recipient updates of one iteration of `get_list`'s member loop:
`if member.email: recipients.add(member.email)` followed by
`if member.extra_emails: for extra_mail in member.extra_emails:
recipients.add(extra_mail)` (the string truthiness test excludes `None` and
the empty string; the list truthiness test is non-emptiness).
`addEmail` is the primary-email part. -/
def addEmail (m : ScoutnetMailinglistMember) (rs : List String) : List String :=
  match m.email with
  | none => rs
  | some e => if e = "" then rs else setAdd rs e

/-- The extra-email updates of the same iteration (the `if` mirrors the
code's truthiness test on the list; folding over an empty list would be the
identity anyway). -/
def addRecipients (m : ScoutnetMailinglistMember) (rs : List String) : List String :=
  if m.extra_emails.isEmpty then addEmail m rs else m.extra_emails.foldl setAdd (addEmail m rs)

/-- The member loop of `get_list` with `fetch_members` true: validate each
raw record, insert it into the `members` dict keyed by its `member_no`
(last write wins), add its `email` (when truthy) and every entry of its
`extra_emails` to the `recipients` set. -/
def processMembers :
    List RawMLMember → List (Int × ScoutnetMailinglistMember) → List String →
    Except String (List (Int × ScoutnetMailinglistMember) × List String)
  | [], ms, rs => .ok (ms, rs)
  | raw :: rest, ms, rs =>
    match ScoutnetMailinglistMember.data_validate raw with
    | .error e => .error e
    | .ok m => processMembers rest (dictInsert m.member_no m ms) (addRecipients m rs)

/-- `ScoutnetClient.get_list` from `scoutnet/client.py`.  `hasKey` models
whether `session_customlists` was configured (an API key was given).  The
`link` check precedes everything else; with `fetch_members` false neither
the session nor the member payload is touched.  The aliases are the
deduplicated, sorted values of the metadata's `aliases` mapping
(`sorted(list(set(values)))`; the code's `if len(list_aliases) > 0` branch
returns `[]` exactly as the general expression does on an empty mapping). -/
def get_list (hasKey : Bool) (ld : ListEnv) (fetch_members : Bool) :
    Except String ScoutnetMailinglist :=
  match ld.link with
  | none => .error "list url not found"
  | some _ =>
    if fetch_members then
      if hasKey then
        match processMembers ld.memberPayload [] [] with
        | .error e => .error e
        | .ok (ms, rs) =>
          .ok { id := ld.id, title := ld.title, description := ld.description,
                aliases := pySorted ld.aliases.dedup,
                recipients := some (pySorted rs), members := some ms }
      else .error "No API key for customlists"
    else
      .ok { id := ld.id, title := ld.title, description := ld.description,
            aliases := pySorted ld.aliases.dedup,
            recipients := none, members := none }

/-- Claim-side definition: the addresses one raw member record contributes
to a list's recipient set, per the spec's words: its primary email when
present, and every entry of its `extra_emails`, all lowercased. -/
def memberAddrs (r : RawMLMember) : List String :=
  (match r.email with | some e => [strToLower e] | none => []) ++
    (r.extra_emails.getD []).map strToLower

/-- Claim-side definition: the deduplicated union of every member's
addresses, sorted lexicographically ascending. -/
def specRecipients (p : List RawMLMember) : List String :=
  pySorted (p.flatMap memberAddrs).dedup

/-! ## Roster/lists orchestrator (`scoutnet/client.py`) -/

/-- Loop body filter `if list_ids and int(list_id) not in list_ids`:
skip the entry when `list_ids` is truthy (given and non-empty) and does not
contain the numeric list id. -/
def skipFilter (ids : Option (List Int)) (lid : Int) : Bool :=
  match ids with
  | none => false
  | some l => !l.isEmpty && !l.contains lid

/-- Loop exit test `if limit is not None and count >= limit`. -/
def limitReached (limit : Option Int) (count : Int) : Bool :=
  match limit with
  | none => false
  | some l => decide (l ≤ count)

/-- The number of payload entries that survive the id allow-list filter. -/
def countSurvivors (ids : Option (List Int)) (items : List (Int × ListEnv)) : Int :=
  ((items.filter fun q => !skipFilter ids q.1).length : Int)

/-- The loop of `ScoutnetClient.get_all_lists`, carrying the running
`count` of considered (aggregated) lists and the accumulated result
dictionary.  A considered list is added to the result only when its alias
list is non-empty; the limit is compared against `count` after every
considered list, kept or not. -/
def get_all_lists_go (hasKey : Bool) (fetch_members : Bool) (limit : Option Int)
    (ids : Option (List Int)) :
    List (Int × ListEnv) → Int → List (Int × ScoutnetMailinglist) →
    Except String (Int × List (Int × ScoutnetMailinglist))
  | [], count, acc => .ok (count, acc)
  | (lid, ld) :: rest, count, acc =>
    if skipFilter ids lid then get_all_lists_go hasKey fetch_members limit ids rest count acc
    else
      match get_list hasKey ld fetch_members with
      | .error e => .error e
      | .ok m =>
        let acc' := if m.aliases.length > 0 then dictInsert lid m acc else acc
        if limitReached limit (count + 1) then .ok (count + 1, acc')
        else get_all_lists_go hasKey fetch_members limit ids rest (count + 1) acc'

/-- `ScoutnetClient.get_all_lists`, instrumented with the final value of
its `count` variable (the number of lists considered, i.e. passed to the
list aggregator `get_list`).  `items` is the customlists payload in
iteration order, keys already int-coerced. -/
def get_all_lists_counted (hasKey : Bool) (fetch_members : Bool) (limit : Option Int)
    (ids : Option (List Int)) (items : List (Int × ListEnv)) :
    Except String (Int × List (Int × ScoutnetMailinglist)) :=
  get_all_lists_go hasKey fetch_members limit ids items 0 []

/-- `ScoutnetClient.get_all_lists` from `scoutnet/client.py`: the returned
mapping from list id to `ScoutnetMailinglist`. -/
def get_all_lists (hasKey : Bool) (fetch_members : Bool) (limit : Option Int)
    (ids : Option (List Int)) (items : List (Int × ListEnv)) :
    Except String (List (Int × ScoutnetMailinglist)) :=
  (get_all_lists_counted hasKey fetch_members limit ids items).map Prod.snd

/-- The loop of `ScoutnetClient.get_all_members`: validate every entry of
the roster payload's `data` mapping and build `{int(k): validated(v)}` in
payload order. -/
def get_all_members_go :
    List (Int × RawScoutnetMember) → List (Int × ScoutnetMember) →
    Except String (List (Int × ScoutnetMember))
  | [], acc => .ok acc
  | (k, r) :: rest, acc =>
    match ScoutnetMember.data_validate r with
    | .error e => .error e
    | .ok m => get_all_members_go rest (dictInsert k m acc)

/-- `ScoutnetClient.get_all_members` from `scoutnet/client.py`.  `payload`
is the roster payload's `data` mapping in iteration order, keys already
int-coerced (`int(k)`). -/
def get_all_members (payload : List (Int × RawScoutnetMember)) :
    Except String (List (Int × ScoutnetMember)) :=
  get_all_members_go payload []

/-! ## Dump/restore (`scoutnet/client.py`) -/

/-- The roster payload: a mapping with a `data` entry holding the member
records. -/
structure MemberlistPayload where
  data : List (Int × RawScoutnetMember)
deriving DecidableEq

/-- The state of a `ScoutnetClient` relevant to the pipeline: the payloads
its two raw-fetch methods (`memberlist`, `customlists`) return — after
`dump`/`restore` these methods are replaced by closures returning captured
payloads, so the state is exactly "what the two methods return" — plus
whether the customlists session is configured. -/
structure ClientState where
  memberlist : MemberlistPayload
  customlists : List (Int × ListEnv)
  hasKeyCustomlists : Bool
deriving DecidableEq

/-- The JSON document written by `ScoutnetClient.dump`: the two raw
payloads, verbatim.  Serializing to disk and parsing back is the identity
on JSON-representable payloads (`json.load ∘ json.dump`), so the file is
modelled by the payload pair itself. -/
structure DumpData where
  memberlist : MemberlistPayload
  customlists : List (Int × ListEnv)
deriving DecidableEq

/-- `ScoutnetClient.dump`: fetch both payloads once, capture them (the
method replacement), and write them to the dump file. -/
def ScoutnetClient.dump (c : ClientState) : DumpData :=
  { memberlist := c.memberlist, customlists := c.customlists }

/-- `ScoutnetClient.restore`: read the dump file and replace the two fetch
methods by closures returning the restored payloads. -/
def ScoutnetClient.restore (c : ClientState) (d : DumpData) : ClientState :=
  { c with memberlist := d.memberlist, customlists := d.customlists }

/-- `get_all_members` as invoked on a client: it consumes the `data` entry
of whatever `self.memberlist()` returns. -/
def client_get_all_members (c : ClientState) : Except String (List (Int × ScoutnetMember)) :=
  get_all_members c.memberlist.data

/-- `get_all_lists` as invoked on a client: it iterates whatever
`self.customlists()` returns. -/
def client_get_all_lists (c : ClientState) (limit : Option Int) (fetch_members : Bool)
    (ids : Option (List Int)) : Except String (List (Int × ScoutnetMailinglist)) :=
  get_all_lists c.hasKeyCustomlists fetch_members limit ids c.customlists

/-! ## Concrete example values used by witnesses and counterexamples -/

/-- Raw mailing-list member of the spec's deduplication example: primary
email `a@x.se`, extra emails `A@X.se` and `b@x.se`. -/
def rawAnna : RawMLMember :=
  { member_no := some 1, first_name := some "Anna", last_name := some "Andersson",
    email := some "a@x.se", extra_emails := some ["A@X.se", "b@x.se"] }

/-- The validated form of `rawAnna`. -/
def mlAnna : ScoutnetMailinglistMember :=
  { member_no := 1, first_name := "Anna", last_name := "Andersson",
    email := some "a@x.se", extra_emails := ["a@x.se", "b@x.se"] }

/-- A custom list whose member payload is the single record `rawAnna`. -/
def ldA : ListEnv :=
  { link := some "https://example.test/list1", id := 1, title := some "List One",
    description := none, aliases := ["list1@example.test"], memberPayload := [rawAnna] }

/-- The `get_list` output for `ldA` with members fetched. -/
def mlA : ScoutnetMailinglist :=
  { id := 1, title := some "List One", description := none,
    aliases := ["list1@example.test"],
    recipients := some ["a@x.se", "b@x.se"], members := some [(1, mlAnna)] }

/-- A reachable (link present) list with members but zero aliases. -/
def ldNoAlias3 : ListEnv :=
  { link := some "https://example.test/list3", id := 3, title := some "Three",
    description := none, aliases := [], memberPayload := [rawAnna] }

/-- A second reachable list with zero aliases. -/
def ldNoAlias4 : ListEnv :=
  { link := some "https://example.test/list4", id := 4, title := some "Four",
    description := none, aliases := [], memberPayload := [] }

/-- A reachable list with one alias. -/
def ldB : ListEnv :=
  { link := some "https://example.test/list2", id := 2, title := some "Bee",
    description := none, aliases := ["bee@example.test"], memberPayload := [rawAnna] }

/-- The `get_list` output for `ldB` with `fetch_members` false. -/
def mlBmeta : ScoutnetMailinglist :=
  { id := 2, title := some "Bee", description := none, aliases := ["bee@example.test"],
    recipients := none, members := none }

/-- A list whose metadata lacks a `link` entry. -/
def ldNoLink : ListEnv :=
  { link := none, id := 9, title := some "Nine", description := none,
    aliases := ["nine@example.test"], memberPayload := [] }

/-- A raw roster record whose `member_no` field is 7. -/
def rawBo : RawScoutnetMember :=
  { member_no := some 7, first_name := some "Bo", last_name := some "Ek",
    date_of_birth := some "1990-01-01", group := some "Scouts",
    contact_mobile_phone := none, email := none, contact_alt_email := none }

/-- The validated form of `rawBo`. -/
def memberBo : ScoutnetMember :=
  { member_no := 7, first_name := "Bo", last_name := "Ek",
    date_of_birth := "1990-01-01", group := "Scouts",
    contact_mobile_phone := none, email := none, contact_alt_email := none }

/-! ## Helper lemmas -/

theorem strToLower_ne_empty {e : String} (h : e ≠ "") : strToLower e ≠ "" := by
  obtain ⟨d⟩ := e
  cases d with
  | nil => exact absurd rfl h
  | cons c cs =>
    intro hc
    have h2 := congrArg String.data hc
    simp [strToLower] at h2

theorem mem_setAdd {y x : String} {s : List String} :
    y ∈ setAdd s x ↔ y = x ∨ y ∈ s := by
  unfold setAdd
  by_cases h : x ∈ s
  · simp only [if_pos h]
    constructor
    · exact Or.inr
    · rintro (rfl | hy)
      · exact h
      · exact hy
  · simp [if_neg h]

theorem nodup_setAdd {x : String} {s : List String} (h : s.Nodup) :
    (setAdd s x).Nodup := by
  unfold setAdd
  by_cases hx : x ∈ s
  · simpa [if_pos hx]
  · simp [if_neg hx, h, hx]

theorem mem_foldl_setAdd {y : String} :
    ∀ (l : List String) (s : List String), y ∈ l.foldl setAdd s ↔ y ∈ s ∨ y ∈ l := by
  intro l
  induction l with
  | nil => simp
  | cons x xs ih =>
    intro s
    simp only [List.foldl_cons, ih, mem_setAdd, List.mem_cons]
    tauto

theorem nodup_foldl_setAdd :
    ∀ (l : List String) (s : List String), s.Nodup → (l.foldl setAdd s).Nodup := by
  intro l
  induction l with
  | nil => exact fun s h => h
  | cons x xs ih => exact fun s h => ih (setAdd s x) (nodup_setAdd h)

theorem mem_dictInsert {β : Type} {q : Int × β} {k : Int} {v : β} :
    ∀ {l : List (Int × β)}, q ∈ dictInsert k v l → q = (k, v) ∨ q ∈ l := by
  intro l
  induction l with
  | nil => simp [dictInsert]
  | cons p rest ih =>
    obtain ⟨k', v'⟩ := p
    simp only [dictInsert]
    by_cases h : k' = k
    · simp only [if_pos h, List.mem_cons]
      rintro (rfl | hq) <;> tauto
    · simp only [if_neg h, List.mem_cons]
      rintro (rfl | hq)
      · tauto
      · rcases ih hq with h2 | h2 <;> tauto

theorem mlmember_validate_fields {r : RawMLMember} {m : ScoutnetMailinglistMember}
    (h : ScoutnetMailinglistMember.data_validate r = .ok m) :
    m.email = r.email.map strToLower ∧
    ∃ ex, r.extra_emails = some ex ∧ m.extra_emails = ex.map strToLower := by
  obtain ⟨mno, fn, ln, em, ex⟩ := r
  cases mno <;> cases fn <;> cases ln <;> cases ex <;>
    simp only [ScoutnetMailinglistMember.data_validate] at h <;>
    first
    | (obtain rfl := Except.ok.inj h; exact ⟨rfl, _, rfl, rfl⟩)
    | exact Except.noConfusion h

theorem member_validate_member_no {r : RawScoutnetMember} {m : ScoutnetMember}
    (h : ScoutnetMember.data_validate r = .ok m) : r.member_no = some m.member_no := by
  obtain ⟨mno, fn, ln, dob, g, ph, em, alt⟩ := r
  cases mno <;> cases fn <;> cases ln <;> cases dob <;> cases g <;>
    simp only [ScoutnetMember.data_validate] at h <;>
    first
    | (obtain rfl := Except.ok.inj h; rfl)
    | exact Except.noConfusion h

theorem mem_addEmail {m : ScoutnetMailinglistMember} {rs : List String}
    (hm : m.email ≠ some "") (y : String) :
    y ∈ addEmail m rs ↔
      y ∈ rs ∨ y ∈ (match m.email with | some e => [e] | none => []) := by
  unfold addEmail
  cases he : m.email with
  | none => simp
  | some e =>
    have hne : e ≠ "" := fun hc => hm (by rw [he, hc])
    simp only [hne, if_false, reduceIte, mem_setAdd, List.mem_cons, List.not_mem_nil, or_false]
    tauto

theorem nodup_addEmail {m : ScoutnetMailinglistMember} {rs : List String}
    (h : rs.Nodup) : (addEmail m rs).Nodup := by
  unfold addEmail
  cases m.email with
  | none => exact h
  | some e =>
    by_cases he : e = ""
    · simpa [he]
    · simpa [he] using nodup_setAdd h

/-- The addresses a validated member contributes: its (truthy) primary
email and its extra emails. -/
theorem mem_addRecipients {m : ScoutnetMailinglistMember} {rs : List String}
    (hm : m.email ≠ some "") (y : String) :
    y ∈ addRecipients m rs ↔
      y ∈ rs ∨ y ∈ ((match m.email with | some e => [e] | none => []) ++ m.extra_emails) := by
  unfold addRecipients
  by_cases hx : m.extra_emails.isEmpty
  · rw [if_pos hx, mem_addEmail hm, List.isEmpty_iff.mp hx]
    simp only [List.append_nil]
  · rw [if_neg hx, mem_foldl_setAdd, mem_addEmail hm, List.mem_append]
    tauto

theorem nodup_addRecipients {m : ScoutnetMailinglistMember} {rs : List String}
    (h : rs.Nodup) : (addRecipients m rs).Nodup := by
  unfold addRecipients
  by_cases hx : m.extra_emails.isEmpty
  · rw [if_pos hx]
    exact nodup_addEmail h
  · rw [if_neg hx]
    exact nodup_foldl_setAdd _ _ (nodup_addEmail h)

/-- A successfully validated member contributes exactly the lowercased
addresses of its raw record. -/
theorem addrs_of_validated {raw : RawMLMember} {m : ScoutnetMailinglistMember}
    (hv : ScoutnetMailinglistMember.data_validate raw = .ok m) :
    (match m.email with | some e => [e] | none => []) ++ m.extra_emails = memberAddrs raw := by
  obtain ⟨hem, ex, hex, hexm⟩ := mlmember_validate_fields hv
  unfold memberAddrs
  rw [hex, hexm, hem]
  cases raw.email <;> simp [Option.map]

/-- Invariant of the member loop: on success, the accumulated recipient set
stays duplicate-free and its elements are the initial ones plus every
member's contributed addresses. -/
theorem processMembers_ok_recipients :
    ∀ (p : List RawMLMember) (ms : List (Int × ScoutnetMailinglistMember)) (rs : List String)
      (out : List (Int × ScoutnetMailinglistMember) × List String),
      processMembers p ms rs = .ok out →
      (∀ r ∈ p, r.email ≠ some "") →
      rs.Nodup →
      out.2.Nodup ∧ ∀ y, y ∈ out.2 ↔ y ∈ rs ∨ y ∈ p.flatMap memberAddrs := by
  intro p
  induction p with
  | nil =>
    intro ms rs out h _ hnd
    obtain rfl := Except.ok.inj h
    exact ⟨hnd, fun y => by simp⟩
  | cons raw rest ih =>
    intro ms rs out h hne hnd
    simp only [processMembers] at h
    cases hv : ScoutnetMailinglistMember.data_validate raw with
    | error e => rw [hv] at h; exact Except.noConfusion h
    | ok m =>
      rw [hv] at h
      have hraw : raw.email ≠ some "" := hne raw (by simp)
      have hm : m.email ≠ some "" := by
        obtain ⟨hem, _, _, _⟩ := mlmember_validate_fields hv
        rw [hem]
        cases hre : raw.email with
        | none => simp
        | some e =>
          have h3 : e ≠ "" := fun hc => hraw (by rw [hre, hc])
          simp [Option.map, strToLower_ne_empty h3]
      have hrest := ih (dictInsert m.member_no m ms) (addRecipients m rs) out h
        (fun r hr => hne r (List.mem_cons_of_mem _ hr)) (nodup_addRecipients hnd)
      refine ⟨hrest.1, fun y => ?_⟩
      rw [hrest.2 y, mem_addRecipients hm, addrs_of_validated hv]
      simp only [List.flatMap_cons, List.mem_append]
      tauto

/-- Inversion of a successful `get_list` with `fetch_members` true. -/
theorem get_list_true_ok {hasKey : Bool} {ld : ListEnv} {m : ScoutnetMailinglist}
    (h : get_list hasKey ld true = .ok m) :
    hasKey = true ∧ ∃ ms rs, processMembers ld.memberPayload [] [] = .ok (ms, rs) ∧
      m = { id := ld.id, title := ld.title, description := ld.description,
            aliases := pySorted ld.aliases.dedup,
            recipients := some (pySorted rs), members := some ms } := by
  unfold get_list at h
  cases hl : ld.link with
  | none => rw [hl] at h; exact Except.noConfusion h
  | some u =>
    rw [hl] at h
    cases hasKey with
    | false =>
      simp only [if_true, Bool.false_eq_true, if_false, reduceIte] at h
      exact Except.noConfusion h
    | true =>
      simp only [if_true, reduceIte] at h
      cases hp : processMembers ld.memberPayload [] [] with
      | error e => rw [hp] at h; exact Except.noConfusion h
      | ok pr =>
        obtain ⟨ms, rs⟩ := pr
        rw [hp] at h
        exact ⟨rfl, ms, rs, rfl, (Except.ok.inj h).symm⟩

/-! ## Claim theorems -/

/-- C1 (counterexample): the claim quantifies over every non-absent raw
phone string, but on the (non-absent) empty string the code's truthiness
test `if phone:` skips every step and returns the empty string unchanged —
a result that does not match `+` followed by at least eleven digits and
that the spec's step pipeline rejects. -/
theorem phone_to_e164_empty_string_diverges_from_steps :
    phone_to_e164 (some "") = some "" ∧ phone_normalize_steps "" = none := by
  exact ⟨rfl, by decide⟩

/-- C1 (amended): for every non-empty raw phone string the phone
normalizer computes its result by exactly the spec's steps — strip hyphens
and whitespace, replace a leading `0` by `+46`, prepend `+` before a
leading digit 1-9, and accept only results matching `+` followed by at
least eleven digits; in particular the two worked examples hold and an
absent input yields an absent result without error. -/
theorem phone_to_e164_follows_spec_steps (s : String) (h : s ≠ "") :
    phone_to_e164 (some s) = phone_normalize_steps s ∧
    phone_to_e164 none = none ∧
    phone_to_e164 (some "070-123 45 67") = some "+46701234567" ∧
    phone_to_e164 (some "46701234567") = some "+46701234567" := by
  refine ⟨?_, rfl, by decide, by decide⟩
  simp only [phone_to_e164, phone_normalize_steps, if_neg h]

/-- C1 (witness): the amended theorem applied to the spec's first worked
example. -/
theorem phone_to_e164_follows_spec_steps_witness :
    phone_to_e164 (some "070-123 45 67") = phone_normalize_steps "070-123 45 67" ∧
    phone_normalize_steps "070-123 45 67" = some "+46701234567" :=
  ⟨(phone_to_e164_follows_spec_steps "070-123 45 67" (by decide)).1, by decide⟩

/-- C2 (counterexample): on the too-short input `"123"` the code does not
fail: it returns a value — the absent marker `None`, indistinguishable
from the result for an absent input — whereas the claim-side normalizer
`phone_normalize_failing`, which follows the spec's words, fails with an
InvalidPhoneNumber condition identifying the offending (transformed)
string. -/
theorem phone_to_e164_invalid_returns_none_not_error :
    phone_to_e164 (some "123") = none ∧
    phone_to_e164 none = none ∧
    phone_normalize_failing (some "123") = .error "Invalid phone number: +123" := by
  exact ⟨by decide, rfl, by decide⟩

/-- C2 (amended): for every non-empty raw phone string whose transformed
form does not match `+` followed by at least eleven digits (for example
`"123"`), phone normalization logs a warning identifying the offending
string and returns an absent result (`None`) — it does not raise and does
not return the malformed string. -/
theorem phone_to_e164_invalid_yields_absent (s : String) (h1 : s ≠ "")
    (h2 : phoneMatchesE164 (phoneTransform s) = false) :
    phone_to_e164 (some s) = none := by
  simp [phone_to_e164, if_neg h1, h2]

/-- C2 (witness): the amended theorem applied to the spec's too-short
example `"123"`. -/
theorem phone_to_e164_invalid_yields_absent_witness :
    phone_to_e164 (some "123") = none :=
  phone_to_e164_invalid_yields_absent "123" (by decide) (by decide)

/-- C3: for every member payload aggregated with `fetch_members` true (and
no degenerate empty-string primary email, which the upstream `EmailStr`
validation rules out), the resulting list's `recipients` equals the
deduplicated union of every member's primary email (when present) and
every entry of every member's `extra_emails`, compared by exact string
match after lowercasing, sorted lexicographically ascending; the result is
sorted and duplicate-free regardless of input order. -/
theorem get_list_recipients_are_sorted_dedup_union
    (hasKey : Bool) (ld : ListEnv) (m : ScoutnetMailinglist)
    (hok : get_list hasKey ld true = .ok m)
    (hne : ∀ r ∈ ld.memberPayload, r.email ≠ some "") :
    m.recipients = some (specRecipients ld.memberPayload) ∧
    (specRecipients ld.memberPayload).Sorted strLe ∧
    (specRecipients ld.memberPayload).Nodup := by
  obtain ⟨-, ms, rs, hp, rfl⟩ := get_list_true_ok hok
  have hinv := processMembers_ok_recipients ld.memberPayload [] [] (ms, rs) hp hne List.nodup_nil
  have hperm : rs.Perm (ld.memberPayload.flatMap memberAddrs).dedup := by
    apply List.perm_of_nodup_nodup_toFinset_eq hinv.1 (List.nodup_dedup _)
    ext y
    simp only [List.mem_toFinset, List.mem_dedup]
    rw [hinv.2 y]
    simp
  have hsorted : pySorted rs = specRecipients ld.memberPayload := by
    unfold pySorted specRecipients
    exact List.eq_of_perm_of_sorted
      (((List.perm_insertionSort strLe rs).trans hperm).trans
        (List.perm_insertionSort strLe _).symm)
      (List.sorted_insertionSort strLe rs)
      (List.sorted_insertionSort strLe _)
  refine ⟨?_, ?_, ?_⟩
  · simpa using congrArg some hsorted
  · exact List.sorted_insertionSort strLe _
  · exact ((List.perm_insertionSort strLe _).nodup_iff).mpr (List.nodup_dedup _)

/-- C3 (witness): the spec's deduplication example — primary `a@x.se` with
extras `A@X.se` and `b@x.se` contributes exactly the two addresses
`a@x.se` and `b@x.se`, sorted. -/
theorem get_list_recipients_are_sorted_dedup_union_witness :
    mlA.recipients = some ["a@x.se", "b@x.se"] ∧
    specRecipients ldA.memberPayload = ["a@x.se", "b@x.se"] := by
  have h := get_list_recipients_are_sorted_dedup_union true ldA mlA (by decide) (by decide)
  have h2 : specRecipients ldA.memberPayload = ["a@x.se", "b@x.se"] := by decide
  exact ⟨by rw [h.1, h2], h2⟩

/-- The loop `count`: starting strictly below the limit, a successful run
ends with the limit capped at the number of entries surviving the id
filter. -/
theorem get_all_lists_go_count (hasKey fm : Bool) (ids : Option (List Int)) (l : Int) :
    ∀ (items : List (Int × ListEnv)) (count : Int) (acc : List (Int × ScoutnetMailinglist))
      (n : Int) (res : List (Int × ScoutnetMailinglist)),
      count < l →
      get_all_lists_go hasKey fm (some l) ids items count acc = .ok (n, res) →
      n = min l (count + countSurvivors ids items) := by
  intro items
  induction items with
  | nil =>
    intro count acc n res hc h
    simp only [get_all_lists_go, Except.ok.injEq, Prod.mk.injEq] at h
    obtain ⟨rfl, rfl⟩ := h
    simp only [countSurvivors, List.filter_nil, List.length_nil]
    omega
  | cons q rest ih =>
    obtain ⟨lid, ld⟩ := q
    intro count acc n res hc h
    simp only [get_all_lists_go] at h
    by_cases hskip : skipFilter ids lid
    · rw [if_pos hskip] at h
      have hs : countSurvivors ids ((lid, ld) :: rest) = countSurvivors ids rest := by
        simp [countSurvivors, List.filter_cons, hskip]
      rw [hs]
      exact ih count acc n res hc h
    · rw [if_neg hskip] at h
      cases hg : get_list hasKey ld fm with
      | error e => rw [hg] at h; exact Except.noConfusion h
      | ok m =>
        simp only [hg] at h
        have hs : countSurvivors ids ((lid, ld) :: rest) = 1 + countSurvivors ids rest := by
          simp [countSurvivors, List.filter_cons, hskip, add_comm]
        have hnn : 0 ≤ countSurvivors ids rest := Int.natCast_nonneg _
        by_cases hlim : limitReached (some l) (count + 1)
        · rw [if_pos hlim] at h
          simp only [Except.ok.injEq, Prod.mk.injEq] at h
          obtain ⟨rfl, rfl⟩ := h
          have hl1 : l ≤ count + 1 := by simpa [limitReached] using hlim
          rw [hs]
          omega
        · rw [if_neg hlim] at h
          have hl1 : ¬ l ≤ count + 1 := by simpa [limitReached] using hlim
          have h2 := ih (count + 1) _ n res (by omega) h
          rw [hs]
          omega

/-- Shape of a successful `get_list` with `fetch_members` false: a
metadata-only record with absent members and recipients. -/
theorem get_list_false_shape {k : Bool} {ld : ListEnv} {m : ScoutnetMailinglist}
    (h : get_list k ld false = .ok m) :
    m = { id := ld.id, title := ld.title, description := ld.description,
          aliases := pySorted ld.aliases.dedup, recipients := none, members := none } := by
  unfold get_list at h
  cases hl : ld.link with
  | none => rw [hl] at h; exact Except.noConfusion h
  | some u =>
    simp only [hl, Bool.false_eq_true, if_false, reduceIte] at h
    exact (Except.ok.inj h).symm

/-- Every property of the aggregated lists that holds of each kept
`get_list` output is an invariant of the orchestrator loop. -/
theorem get_all_lists_go_preserves (P : ScoutnetMailinglist → Prop)
    (hasKey fm : Bool) (limit : Option Int) (ids : Option (List Int))
    (hP : ∀ ld m, get_list hasKey ld fm = .ok m → m.aliases.length > 0 → P m) :
    ∀ (items : List (Int × ListEnv)) (count : Int) (acc : List (Int × ScoutnetMailinglist))
      (n : Int) (res : List (Int × ScoutnetMailinglist)),
      (∀ q ∈ acc, P q.2) →
      get_all_lists_go hasKey fm limit ids items count acc = .ok (n, res) →
      ∀ q ∈ res, P q.2 := by
  intro items
  induction items with
  | nil =>
    intro count acc n res hacc h
    simp only [get_all_lists_go, Except.ok.injEq, Prod.mk.injEq] at h
    obtain ⟨rfl, rfl⟩ := h
    exact hacc
  | cons q rest ih =>
    obtain ⟨lid, ld⟩ := q
    intro count acc n res hacc h
    simp only [get_all_lists_go] at h
    by_cases hskip : skipFilter ids lid
    · rw [if_pos hskip] at h
      exact ih count acc n res hacc h
    · rw [if_neg hskip] at h
      cases hg : get_list hasKey ld fm with
      | error e => rw [hg] at h; exact Except.noConfusion h
      | ok m =>
        simp only [hg] at h
        have hacc' : ∀ q ∈ (if m.aliases.length > 0 then dictInsert lid m acc else acc),
            P q.2 := by
          by_cases hal : m.aliases.length > 0
          · rw [if_pos hal]
            intro q hq
            rcases mem_dictInsert hq with rfl | hq2
            · exact hP ld m hg hal
            · exact hacc q hq2
          · rw [if_neg hal]
            exact hacc
        by_cases hlim : limitReached limit (count + 1)
        · rw [if_pos hlim] at h
          simp only [Except.ok.injEq, Prod.mk.injEq] at h
          obtain ⟨rfl, rfl⟩ := h
          exact hacc'
        · rw [if_neg hlim] at h
          exact ih (count + 1) _ n res hacc' h

/-- A successful `get_all_lists` run exposes a successful counted run. -/
theorem get_all_lists_ok_counted {hasKey fm : Bool} {limit : Option Int}
    {ids : Option (List Int)} {items : List (Int × ListEnv)}
    {res : List (Int × ScoutnetMailinglist)}
    (hok : get_all_lists hasKey fm limit ids items = .ok res) :
    ∃ n, get_all_lists_counted hasKey fm limit ids items = .ok (n, res) := by
  unfold get_all_lists at hok
  cases hc : get_all_lists_counted hasKey fm limit ids items with
  | error e => rw [hc] at hok; exact Except.noConfusion hok
  | ok pr =>
    obtain ⟨n, res'⟩ := pr
    rw [hc] at hok
    simp only [Except.map] at hok
    obtain rfl := Except.ok.inj hok
    exact ⟨n, rfl⟩

/-- With `fetch_members` false the result of `get_list` does not depend on
the member payload behind the list's `link` URL. -/
theorem get_list_fetchFalse_payload (k k' : Bool) (ld : ListEnv) (p : List RawMLMember) :
    get_list k' { ld with memberPayload := p } false = get_list k ld false := by
  obtain ⟨l, i, t, d, a, mp⟩ := ld
  cases l <;> rfl

/-- Loop version of the payload-independence: replacing every list's member
payload (and the session key) leaves a `fetch_members = false` run
unchanged. -/
theorem get_all_lists_go_no_fetch (k k' : Bool) (limit : Option Int) (ids : Option (List Int))
    (g : Int → ListEnv → List RawMLMember) :
    ∀ (items : List (Int × ListEnv)) (count : Int) (acc : List (Int × ScoutnetMailinglist)),
      get_all_lists_go k' false limit ids
        (items.map fun q => (q.1, { q.2 with memberPayload := g q.1 q.2 })) count acc =
      get_all_lists_go k false limit ids items count acc := by
  intro items
  induction items with
  | nil => intro count acc; rfl
  | cons q rest ih =>
    obtain ⟨lid, ld⟩ := q
    intro count acc
    simp only [List.map_cons, get_all_lists_go]
    by_cases hskip : skipFilter ids lid
    · rw [if_pos hskip, if_pos hskip]
      exact ih count acc
    · rw [if_neg hskip, if_neg hskip,
        get_list_fetchFalse_payload k k' ld (g lid ld)]
      cases hg : get_list k ld false with
      | error e => rfl
      | ok m =>
        by_cases hlim : limitReached limit (count + 1)
        · simp only [if_pos hlim]
        · simp only [if_neg hlim]
          exact ih (count + 1) _

/-- C4 (counterexample): with the limit set to `0` over a payload with one
surviving list, `get_all_lists` still considers (aggregates) that first
list — the final `count` is `1`, not `min 0 1 = 0`: the limit test runs
only after a list has already been considered. -/
theorem get_all_lists_limit_zero_considers_one :
    get_all_lists_counted false false (some 0) none [(3, ldNoAlias3)] = .ok (1, []) ∧
    countSurvivors none [(3, ldNoAlias3)] = 1 ∧
    (1 : Int) ≠ min 0 (countSurvivors none [(3, ldNoAlias3)]) := by
  exact ⟨by decide, by decide, by decide⟩

/-- C4 (amended): for every customlists payload and every limit of at least
one, `get_all_lists` with that limit considers exactly
`min(limit, number of lists surviving the id allow-list filter)` lists,
counting every considered list toward the limit even when it is dropped
for having zero aliases (a non-positive limit still considers the first
surviving list). -/
theorem get_all_lists_limit_bounds_considered (hasKey fm : Bool) (ids : Option (List Int))
    (items : List (Int × ListEnv)) (l n : Int) (res : List (Int × ScoutnetMailinglist))
    (hl : 1 ≤ l)
    (hok : get_all_lists_counted hasKey fm (some l) ids items = .ok (n, res)) :
    n = min l (countSurvivors ids items) := by
  have h := get_all_lists_go_count hasKey fm ids l items 0 [] n res (by omega) hok
  simpa using h

/-- C4 (witness): the spec's own instance — `limit = 2` over two surviving
alias-less lists processes both (`count = 2 = min 2 2`) and returns an
empty mapping. -/
theorem get_all_lists_limit_bounds_considered_witness :
    (2 : Int) = min 2 (countSurvivors none [(3, ldNoAlias3), (4, ldNoAlias4)]) ∧
    get_all_lists false false (some 2) none [(3, ldNoAlias3), (4, ldNoAlias4)] = .ok [] := by
  refine ⟨get_all_lists_limit_bounds_considered false false none
    [(3, ldNoAlias3), (4, ldNoAlias4)] 2 2 [] (by decide) (by decide), by decide⟩

/-- C5: for every customlists payload and every limit, id-filter and
`fetch_members` arguments, every list whose aggregated alias set is empty
is absent from a successful `get_all_lists` result: every returned entry
has a non-empty alias list. -/
theorem get_all_lists_excludes_aliasless (hasKey fm : Bool) (limit : Option Int)
    (ids : Option (List Int)) (items : List (Int × ListEnv))
    (res : List (Int × ScoutnetMailinglist))
    (hok : get_all_lists hasKey fm limit ids items = .ok res) :
    ∀ q ∈ res, q.2.aliases ≠ [] := by
  obtain ⟨n, hc⟩ := get_all_lists_ok_counted hok
  exact get_all_lists_go_preserves (fun m => m.aliases ≠ []) hasKey fm limit ids
    (fun ld m _ hal => List.ne_nil_of_length_pos hal)
    items 0 [] n res (by simp) hc

/-- C5 (witness): the theorem applied to a one-list payload whose list has
an alias and members behind a reachable link. -/
theorem get_all_lists_excludes_aliasless_witness : mlBmeta.aliases ≠ [] := by
  have h := get_all_lists_excludes_aliasless false false none none [(2, ldB)]
    [(2, mlBmeta)] (by decide)
  exact h (2, mlBmeta) (by decide)

/-- C6: `get_all_lists` with `fetch_members` false never invokes the
per-list member-fetch endpoint — its result is unchanged when every list's
member payload (and even the customlists session key) is replaced
arbitrarily — and every entry of a successful result has `members` and
`recipients` both absent. -/
theorem get_all_lists_no_member_fetch_when_disabled (hasKey hasKey' : Bool)
    (limit : Option Int) (ids : Option (List Int)) (items : List (Int × ListEnv))
    (g : Int → ListEnv → List RawMLMember) :
    get_all_lists hasKey' false limit ids
      (items.map fun q => (q.1, { q.2 with memberPayload := g q.1 q.2 })) =
      get_all_lists hasKey false limit ids items ∧
    ∀ res, get_all_lists hasKey false limit ids items = .ok res →
      ∀ q ∈ res, q.2.members = none ∧ q.2.recipients = none := by
  constructor
  · unfold get_all_lists get_all_lists_counted
    rw [get_all_lists_go_no_fetch hasKey hasKey' limit ids g items 0 []]
  · intro res hok
    obtain ⟨n, hc⟩ := get_all_lists_ok_counted hok
    exact get_all_lists_go_preserves
      (fun m => m.members = none ∧ m.recipients = none) hasKey false limit ids
      (fun ld m hg _ => by rw [get_list_false_shape hg]; exact ⟨rfl, rfl⟩)
      items 0 [] n res (by simp) hc

/-- C6 (witness): the theorem applied to a one-list payload: replacing the
member payload does not change the metadata-only result, and the returned
entry has `members = none` and `recipients = none`. -/
theorem get_all_lists_no_member_fetch_when_disabled_witness :
    get_all_lists true false none none [(2, { ldB with memberPayload := [] })] =
      get_all_lists false false none none [(2, ldB)] ∧
    mlBmeta.members = none ∧ mlBmeta.recipients = none := by
  have h := get_all_lists_no_member_fetch_when_disabled false true none none
    [(2, ldB)] (fun _ _ => [])
  exact ⟨h.1, h.2 [(2, mlBmeta)] (by decide) (2, mlBmeta) (by decide)⟩

/-- C7: for every `get_list` output — any list metadata, any member
payload, either value of `fetch_members` — the `recipients` field and the
`members` field are present together or absent together. -/
theorem get_list_members_recipients_same_presence (hasKey fm : Bool) (ld : ListEnv)
    (m : ScoutnetMailinglist) (hok : get_list hasKey ld fm = .ok m) :
    (m.members = none ↔ m.recipients = none) ∧
    (m.members.isSome ↔ m.recipients.isSome) := by
  cases fm with
  | false => rw [get_list_false_shape hok]; simp
  | true =>
    obtain ⟨-, ms, rs, -, rfl⟩ := get_list_true_ok hok
    simp

/-- C7 (witness): the theorem applied on both sides of the
`fetch_members` flag. -/
theorem get_list_members_recipients_same_presence_witness :
    (mlBmeta.members = none ↔ mlBmeta.recipients = none) ∧
    (mlA.members.isSome ↔ mlA.recipients.isSome) :=
  ⟨(get_list_members_recipients_same_presence false false ldB mlBmeta (by decide)).1,
   (get_list_members_recipients_same_presence true true ldA mlA (by decide)).2⟩

/-- C8 (counterexample): the keys of the `get_all_members` result come
from the payload's own keys (`int(k)`), not from the validated record's
`member_no`: a payload entry keyed `5` whose record carries `member_no = 7`
is returned under key `5` while its Member's `member_no` is `7`. -/
theorem get_all_members_key_not_member_no :
    get_all_members [(5, rawBo)] = .ok [(5, memberBo)] ∧
    memberBo.member_no = 7 ∧ (5 : Int) ≠ 7 := by
  exact ⟨by decide, rfl, by decide⟩

/-- Invariant of the roster loop: keys equal the records' `member_no`
whenever the payload is keyed that way. -/
theorem get_all_members_go_keys :
    ∀ (payload : List (Int × RawScoutnetMember)) (acc : List (Int × ScoutnetMember))
      (res : List (Int × ScoutnetMember)),
      (∀ q ∈ payload, q.2.member_no = some q.1) →
      (∀ q ∈ acc, q.2.member_no = q.1) →
      get_all_members_go payload acc = .ok res →
      ∀ q ∈ res, q.2.member_no = q.1 := by
  intro payload
  induction payload with
  | nil =>
    intro acc res _ hacc h
    obtain rfl := Except.ok.inj h
    exact hacc
  | cons p rest ih =>
    obtain ⟨k, r⟩ := p
    intro acc res hpay hacc h
    simp only [get_all_members_go] at h
    cases hv : ScoutnetMember.data_validate r with
    | error e => rw [hv] at h; exact Except.noConfusion h
    | ok m =>
      simp only [hv] at h
      have hk : m.member_no = k := by
        have h1 := member_validate_member_no hv
        have h2 := hpay (k, r) (by simp)
        exact Option.some.inj (h1.symm.trans h2)
      refine ih (dictInsert k m acc) res
        (fun q hq => hpay q (List.mem_cons_of_mem _ hq)) ?_ h
      intro q hq
      rcases mem_dictInsert hq with rfl | hq2
      · exact hk
      · exact hacc q hq2

/-- C8 (amended): `get_all_members` runs the member validator over every
entry of the payload's `data` mapping and returns a mapping keyed by the
payload's own (int-coerced) keys; whenever every entry's `member_no` field
equals its payload key — as the roster service keys its records — every
returned key equals the `member_no` of the Member it maps to. -/
theorem get_all_members_keys_from_payload (payload : List (Int × RawScoutnetMember))
    (res : List (Int × ScoutnetMember))
    (hok : get_all_members payload = .ok res)
    (hkeys : ∀ q ∈ payload, q.2.member_no = some q.1) :
    ∀ q ∈ res, q.2.member_no = q.1 :=
  get_all_members_go_keys payload [] res hkeys (by simp) hok

/-- C8 (witness): the amended theorem applied to a payload keyed by
`member_no`. -/
theorem get_all_members_keys_from_payload_witness : memberBo.member_no = 7 := by
  have h := get_all_members_keys_from_payload [(7, rawBo)] [(7, memberBo)]
    (by decide) (by decide)
  exact h (7, memberBo) (by decide)

/-- C9: restoring a dump of the two raw payloads restores the exact client
state, so `get_all_members` and `get_all_lists` (for every argument
combination) after `restore (dump c)` return exactly what a live fetch
returning the same raw payloads returns. -/
theorem dump_restore_roundtrip (c : ClientState) (limit : Option Int) (fm : Bool)
    (ids : Option (List Int)) :
    ScoutnetClient.restore c (ScoutnetClient.dump c) = c ∧
    client_get_all_members (ScoutnetClient.restore c (ScoutnetClient.dump c)) =
      client_get_all_members c ∧
    client_get_all_lists (ScoutnetClient.restore c (ScoutnetClient.dump c)) limit fm ids =
      client_get_all_lists c limit fm ids :=
  ⟨rfl, rfl, rfl⟩

/-- C10: for every list metadata whose `link` entry is absent, `get_list`
fails with the missing-list-URL error even when `fetch_members` is false:
the URL check precedes the `fetch_members` branch, so no metadata-only
list is ever produced for a link-less list. -/
theorem get_list_missing_link_fails_unconditionally (hasKey fm : Bool) (ld : ListEnv)
    (h : ld.link = none) :
    get_list hasKey ld fm = .error "list url not found" := by
  unfold get_list
  rw [h]

/-- C10 (witness): the theorem applied to a link-less list with
`fetch_members` false. -/
theorem get_list_missing_link_fails_unconditionally_witness :
    get_list true ldNoLink false = .error "list url not found" :=
  get_list_missing_link_fails_unconditionally true false ldNoLink rfl
